import Mathlib

/-
Verification of grunt-localeapp (src/tasks/localeapp.js) against its
natural-language specification.  The single source file is shallowly
embedded below: the JS objects handled by `yaml.load` become the inductive
type `Doc`, the filesystem the plugin manipulates becomes the explicit
`World` state, subprocess output is supplied as parameters, and every grunt
task step becomes a pure Lean function mirroring the corresponding lines of
the source.
-/

set_option linter.unusedVariables false

namespace GruntLocaleapp

/-- A structured translation document, as produced by `yaml.load` and handled
as a plain JS object by src/tasks/localeapp.js: string-keyed mappings whose
leaves are strings or numbers. -/
inductive Doc where
  | str : String → Doc
  | num : Int → Doc
  | obj : List (String × Doc) → Doc

mutual
/-- The recursion of `_countEntries` (src/tasks/localeapp.js lines 126-142):
a property whose value is an object is recursed into, every other property
value contributes exactly one counted entry. -/
def leafCount : Doc → Nat
  | .str _ => 1
  | .num _ => 1
  | .obj es => leafCountList es

/-- Sum of `leafCount` over the values of an object's property list. -/
def leafCountList : List (String × Doc) → Nat
  | [] => 0
  | e :: es => leafCount e.2 + leafCountList es
end

/-- Reordering of a document: the same keys and values, with the properties
at any nesting depth permuted.  This is the "any iteration order" relation
of the entry-counter claim. -/
inductive Reordered : Doc → Doc → Prop where
  | str (s : String) : Reordered (.str s) (.str s)
  | num (n : Int) : Reordered (.num n) (.num n)
  | objNil : Reordered (.obj []) (.obj [])
  | objCons (k : String) {v v' : Doc} {es es' : List (String × Doc)} :
      Reordered v v' → Reordered (.obj es) (.obj es') →
      Reordered (.obj ((k, v) :: es)) (.obj ((k, v') :: es'))
  | objPerm {es fs : List (String × Doc)} : es.Perm fs →
      Reordered (.obj es) (.obj fs)
  | trans {a b c : Doc} : Reordered a b → Reordered b c → Reordered a c

/-- Boolean prefix test on character lists (`leadsWith p s` holds when `p`
is an initial segment of `s`). -/
def leadsWith : List Char → List Char → Bool
  | [], _ => true
  | _ :: _, [] => false
  | p :: ps, c :: cs => if p = c then leadsWith ps cs else false

/-- Boolean substring-occurrence test on character lists. -/
def occursIn (pat : List Char) : List Char → Bool
  | [] => leadsWith pat []
  | c :: cs => leadsWith pat (c :: cs) || occursIn pat cs

/-- Substring-occurrence test on strings. -/
def occursInStr (pat s : String) : Bool := occursIn pat.data s.data

/-- The characters before the first occurrence of `pat` (the whole list when
`pat` does not occur): the JS idiom `s.split(pat)[0]`. -/
def beforeFirstOcc (pat : List Char) : List Char → List Char
  | [] => []
  | c :: cs => if leadsWith pat (c :: cs) then [] else c :: beforeFirstOcc pat cs

/-- `s.split('.yml')[0]` from the source (lines 160 and 197). -/
def splitYmlHead (s : String) : String := ⟨beforeFirstOcc ".yml".data s.data⟩

/-- JS `String.prototype.replace('-', '_')`: only the FIRST hyphen is
replaced (string patterns in JS `replace` match once). -/
def replaceFirstHyphenL : List Char → List Char
  | [] => []
  | c :: cs => if c = '-' then '_' :: cs else c :: replaceFirstHyphenL cs

/-- `file.replace('-', '_')` from the source (lines 166, 169 and 199). -/
def replaceFirstHyphen (s : String) : String := ⟨replaceFirstHyphenL s.data⟩

/-- JS `s.slice(0, -1)`: the string without its final character. -/
def jsSlice0m1 (s : String) : String := ⟨s.data.dropLast⟩

/-- JS `s.slice(0, n)` for a nonnegative `n`. -/
def jsTake (n : Nat) (s : String) : String := ⟨s.data.take n⟩

/-- Strip an assignment wrapper from a formatted string: drop the first `n`
characters (the `var translate_<locale> = ` prefix) and the final character
(the trailing semicolon). -/
def stripAssign (content : String) (n : Nat) : String :=
  ⟨(content.data.dropLast).drop n⟩

/-- Split a character list at a separator character, JS
`String.prototype.split` style (`"".split` gives one empty field). -/
def splitOnChar (sep : Char) : List Char → List (List Char)
  | [] => [[]]
  | c :: cs =>
    match splitOnChar sep cs with
    | [] => [[]]
    | g :: gs => if c = sep then [] :: g :: gs else (c :: g) :: gs

/-- First-key lookup in an association list, the JS property read `obj[k]`
(`none` models `undefined`). -/
def lookupKey {α : Type} : List (String × α) → String → Option α
  | [], _ => none
  | f :: fs, p => if f.1 = p then some f.2 else lookupKey fs p

/-- JS property read on a document: `undefined` (`none`) unless the value is
an object with the key. -/
def docIndex : Doc → String → Option Doc
  | .obj es, k => lookupKey es k
  | .str _, _ => none
  | .num _, _ => none

/-- JS property write `d[k] = v`: replaces the binding when the key exists,
appends it otherwise. -/
def setEntry : List (String × Doc) → String → Doc → List (String × Doc)
  | [], k, v => [(k, v)]
  | e :: es, k, v => if e.1 = k then (k, v) :: es else e :: setEntry es k v

/-- JS property write on a document; a write to a non-object primitive is
kept as the identity (no claim exercises that case). -/
def setField (d : Doc) (k : String) (v : Doc) : Doc :=
  match d with
  | .obj es => .obj (setEntry es k v)
  | other => other

/-- JSON string escaping for the characters that can appear in the
documents handled here (quote, backslash, newline). -/
def escapeChar (c : Char) : List Char :=
  if c = '"' then ['\\', '"']
  else if c = '\\' then ['\\', '\\']
  else if c = '\n' then ['\\', 'n']
  else [c]

/-- A JSON string literal with surrounding quotes. -/
def jsonQuote (s : String) : String :=
  ⟨'"' :: s.data.foldr (fun c acc => escapeChar c ++ acc) ['"']⟩

/-- A run of `n` spaces. -/
def spaces (n : Nat) : String := ⟨List.replicate n ' '⟩

/-- Join member lines with the comma-newline separator JSON.stringify puts
between object members. -/
def joinCommaNl : List String → String
  | [] => ""
  | [x] => x
  | x :: y :: xs => x ++ ",\n" ++ joinCommaNl (y :: xs)

mutual
/-- `JSON.stringify(v, null, 2)` at nesting depth `d` (the pretty-printed
two-space-indented serialization used at lines 165 and 168). -/
def stringifyAt : Nat → Doc → String
  | _, .str s => jsonQuote s
  | _, .num n => toString n
  | d, .obj es =>
    match stringifyLines (d + 1) es with
    | [] => "\x7b\x7d"
    | l :: ls => "\x7b\n" ++ joinCommaNl (l :: ls) ++ "\n" ++ spaces (2 * d) ++ "\x7d"

/-- The indented `"key": value` member lines of an object serialization. -/
def stringifyLines : Nat → List (String × Doc) → List String
  | _, [] => []
  | d, e :: es =>
      (spaces (2 * d) ++ jsonQuote e.1 ++ ": " ++ stringifyAt d e.2) ::
        stringifyLines d es
end

/-- `JSON.stringify(v, null, 2)` at top level. -/
def stringifyTop (v : Doc) : String := stringifyAt 0 v

/-- Models `new Date(epochSeconds * 1000).toString()` (lines 179-180).  The
real rendering is locale- and timezone-dependent; the model keeps the
conversion as an injective display string.  No claim depends on the
rendering, because the `_meta` record never reaches any written output. -/
def dateDisplay (epochSeconds : Int) : String := "Date(" ++ toString epochSeconds ++ ")"

/-- Lines 177-181 of `_formatJSON`: `json._meta = {}` followed by the three
field writes.  Note this happens to the in-memory object only AFTER
`content` has been serialized at lines 165/168. -/
def jsonWithMeta (json : Doc) (polledAt updatedAt : Int) (version : String) : Doc :=
  setField json "_meta" (Doc.obj
    [("polledAt", Doc.str (dateDisplay polledAt)),
     ("updatedAt", Doc.str (dateDisplay updatedAt)),
     ("gem", Doc.str version)])

/-- Result of `_checkLocaleappGem`: whether `grunt.fail.fatal` fired, and the
version token passed to the success log line. -/
structure GemCheckResult where
  fatal : Bool
  reported : Option String
deriving DecidableEq, Repr

/-- Embeds `_checkLocaleappGem` (lines 28-41).  `command('localeapp -v').stdout`
is a captured string (possibly empty); the source slices off its final
character and then tests `version === undefined`.  Slicing a string always
yields a string, modelled by the `some` wrapper the match inspects. -/
def checkLocaleappGem (stdout : String) : GemCheckResult :=
  match (some (jsSlice0m1 stdout) : Option String) with
  | none => { fatal := true, reported := none }
  | some v =>
      { fatal := false,
        reported := ((splitOnChar ' ' v.data).get? 2).map (fun l => (⟨l⟩ : String)) }

/-- Embeds the failure test of `_setupProject` (line 57):
`log.slice(0, 5) === 'error'`. -/
def setupProjectFatal (stdout : String) : Bool := jsTake 5 stdout == "error"

/-- The `this.data` configuration of one task target (key, format, dest). -/
structure TaskData where
  key : String
  format : String
  dest : String
deriving DecidableEq, Repr

/-- One file downloaded by `localeapp pull`: its name inside
`config/locales`, its raw YAML text, and the document that text parses to
(`doc` stands for `yaml.load` applied to `raw`). -/
structure PulledFile where
  name : String
  raw : String
  doc : Doc

/-- Everything the run receives from outside: captured subprocess output,
the pulled files, and the `polled_at` / `updated_at` epoch numbers parsed
from `log/localeapp.yml`. -/
structure Env where
  versionStdout : String
  installStdout : String
  pulled : List PulledFile
  logPolledAt : Int
  logUpdatedAt : Int

/-- The filesystem: the set of existing directories and the files with
their textual content. -/
structure World where
  dirs : List String
  files : List (String × String)
deriving DecidableEq, Repr

/-- A file-system or subprocess effect, recorded in program order. -/
inductive Event where
  | exec (cmd : String)
  | mkdir (path : String)
  | openFile (path : String)
  | deleteDir (path : String)
  | renameFile (src dst : String)
  | writeFile (path : String)
  | copyFile (src dst : String)
deriving DecidableEq, Repr

/-- Pipeline state: the world plus the trace of effects so far. -/
structure S where
  w : World
  tr : List Event
deriving DecidableEq, Repr

/-- `grunt.file.isDir`. -/
def isDir (w : World) (p : String) : Bool := w.dirs.contains p

/-- Whether `path` lies strictly inside directory `p`. -/
def underDir (p path : String) : Bool := leadsWith (p ++ "/").data path.data

/-- `grunt.file.delete p` for a directory: removes `p` and everything
beneath it, recursively. -/
def deleteDirW (w : World) (p : String) : World :=
  { dirs := w.dirs.filter (fun d => !(d == p || underDir p d)),
    files := w.files.filter (fun f => !(f.1 == p || underDir p f.1)) }

/-- Directory creation (parents are not created: `fs.mkdir` is not
recursive). -/
def addDir (w : World) (p : String) : World :=
  if w.dirs.contains p then w else { w with dirs := w.dirs ++ [p] }

/-- The chain of parent directories of a path, shortest first
(`"a/b/c.txt"` gives `["a", "a/b"]`). -/
def joinWithSlash : List (List Char) → List Char
  | [] => []
  | [g] => g
  | g :: gs => g ++ '/' :: joinWithSlash gs

/-- The parent-directory prefixes of a path. -/
def dirParents (p : String) : List String :=
  let parts := (splitOnChar '/' p.data).dropLast
  (List.range parts.length).map (fun i => (⟨joinWithSlash (parts.take (i + 1))⟩ : String))

/-- Create or overwrite a file without touching directories (`fs.openSync`
style). -/
def setFileW (w : World) (path c : String) : World :=
  { w with files := w.files.filter (fun f => !(f.1 == path)) ++ [(path, c)] }

/-- `grunt.file.write`: creates the missing parent directories, then writes
the file. -/
def writeFileW (w : World) (path c : String) : World :=
  setFileW ((dirParents path).foldl addDir w) path c

/-- The content of a file, `none` when it does not exist. -/
def fileContent (w : World) (p : String) : Option String := lookupKey w.files p

/-- `fs.rename src dst`: moves the file when the source exists (the source
ignores rename errors, lines 172-174). -/
def renameFileW (w : World) (src dst : String) : World :=
  match fileContent w src with
  | none => w
  | some c =>
      { w with files := w.files.filter (fun f => !(f.1 == src || f.1 == dst)) ++ [(dst, c)] }

/-- Normalize a directory path to end with a slash. -/
def dirSlash (p : String) : String := if p.data.getLast? = some '/' then p else p ++ "/"

/-- `fs.readdirSync p`: the names of the files inside directory `p`. -/
def readdir (w : World) (p : String) : List String :=
  (w.files.filter (fun f => leadsWith (dirSlash p).data f.1.data)).map
    (fun f => (⟨f.1.data.drop (dirSlash p).data.length⟩ : String))

/-- `grunt.file.copy src dst`: read the source and write it at `dst`. -/
def copyFileW (w : World) (src dst : String) : World :=
  match fileContent w src with
  | none => w
  | some c => writeFileW w dst c

/-- Record an effect that does not change the world. -/
def emit (s : S) (e : Event) : S := ⟨s.w, s.tr ++ [e]⟩

/-- `fs.mkdir` with its trace entry. -/
def mkdirS (s : S) (p : String) : S := ⟨addDir s.w p, s.tr ++ [.mkdir p]⟩

/-- `fs.openSync(p, 'w')` with its trace entry. -/
def openS (s : S) (p : String) : S := ⟨setFileW s.w p "", s.tr ++ [.openFile p]⟩

/-- `fs.rename` with its trace entry. -/
def renameS (s : S) (a b : String) : S := ⟨renameFileW s.w a b, s.tr ++ [.renameFile a b]⟩

/-- `grunt.file.write` with its trace entry. -/
def writeS (s : S) (p c : String) : S := ⟨writeFileW s.w p c, s.tr ++ [.writeFile p]⟩

/-- `grunt.file.copy` with its trace entry. -/
def copyS (s : S) (a b : String) : S := ⟨copyFileW s.w a b, s.tr ++ [.copyFile a b]⟩

/-- One iteration of `_clean` (lines 204-208): delete the path when it is a
directory. -/
def cleanStep (s : S) (p : String) : S :=
  if isDir s.w p then ⟨deleteDirW s.w p, s.tr ++ [.deleteDir p]⟩ else s

/-- `_clean(folders)` (lines 203-209): delete each listed path when it is a
directory. -/
def cleanS (folders : List String) (s : S) : S := folders.foldl cleanStep s

/-- The effect of the external `localeapp pull` subprocess, modelled from the
spec's collaborator contract (spec section 6): it downloads the batch into the
locale working directory as `<locale-code>.yml`, ensuring the directory
exists. -/
def pullS (env : Env) (s : S) : S :=
  env.pulled.foldl
    (fun s f => ⟨writeFileW s.w ("config/locales/" ++ f.name) f.raw, s.tr⟩)
    ⟨addDir (addDir s.w "config") "config/locales", s.tr⟩

/-- The `yaml.load` view of the pulled files: full on-disk path to parsed
document. -/
def pulledDocs (env : Env) : List (String × Doc) :=
  env.pulled.map (fun f => ("config/locales/" ++ f.name, f.doc))

/-- One iteration of the `_formatJSON` loop (lines 159-183).  `docs` maps
each on-disk YAML path to its parsed document (the model of `yaml.load`).
`content` is produced from `json` BEFORE the source attaches `_meta` to the
in-memory object (compare `jsonWithMeta`), so the write stores the
serialization without `_meta`.  The returned flag is true when the iteration
throws: `yaml.load` on a missing file, or the `json._meta` assignment when
`json` is `undefined`; the latter happens after the rename has already been
issued. -/
def formatOneJSON (docs : List (String × Doc)) (toJS : Bool) (s : S) (fname : String) :
    S × Bool :=
  let locale := splitYmlHead fname
  let file := "config/locales/" ++ locale
  match lookupKey docs (file ++ ".yml") with
  | none => (s, true)
  | some doc =>
    let filename :=
      if toJS then replaceFirstHyphen file ++ ".js" else replaceFirstHyphen file ++ ".json"
    match docIndex doc locale with
    | none => (renameS s (file ++ ".yml") filename, true)
    | some json =>
      let content :=
        if toJS then
          "var translate_" ++ replaceFirstHyphen locale ++ " = " ++ stringifyTop json ++ ";"
        else stringifyTop json
      (writeS (renameS s (file ++ ".yml") filename) filename content, false)

/-- The `for` loop of `_formatJSON` over the fetched file list; stops at the
first throwing iteration. -/
def formatJSONGo (docs : List (String × Doc)) (toJS : Bool) :
    List String → S → S × Bool
  | [], s => (s, false)
  | f :: fs, s =>
    match formatOneJSON docs toJS s f with
    | (s1, true) => (s1, true)
    | (s1, false) => formatJSONGo docs toJS fs s1

/-- `_formatYML` (lines 193-201): rename each fetched file, first hyphen to
underscore, content untouched. -/
def formatYMLGo : List String → S → S
  | [], s => s
  | f :: fs, s =>
    formatYMLGo fs
      (renameS s ("config/locales/" ++ splitYmlHead f ++ ".yml")
        (replaceFirstHyphen ("config/locales/" ++ splitYmlHead f) ++ ".yml"))

/-- The copy loop of the task callback (lines 247-254): destination path is
the plain concatenation `this.data.dest + locales[i]`, with no separator
inserted. -/
def copyGo (dest : String) : List String → S → S
  | [], s => s
  | n :: ns, s => copyGo dest ns (copyS s ("config/locales/" ++ n) (dest ++ n))

/-- `_getLocales` (lines 75-115) followed by the format switch
(lines 227-242): create the working directories and the log file, pull,
enumerate, then format.  The flag is true when a format iteration threw. -/
def fetchAndFormatS (d : TaskData) (env : Env) (s3 : S) : S × Bool :=
  let s7 := emit (openS (mkdirS (mkdirS s3 "config/locales") "log") "log/localeapp.yml")
    (.exec "localeapp pull")
  let s8 := pullS env s7
  let files := readdir s8.w "config/locales"
  if d.format = "js" then formatJSONGo (pulledDocs env) true files s8
  else if d.format = "json" then formatJSONGo (pulledDocs env) false files s8
  else (formatYMLGo files s8, false)

/-- How the task ended. -/
inductive Outcome where
  | success (reported : Nat)
  | fatalError (msg : String)
  | crashed
deriving DecidableEq, Repr

/-- The final world, the effect trace, and the outcome of one task run. -/
structure RunResult where
  world : World
  trace : List Event
  outcome : Outcome
deriving DecidableEq, Repr

/-- The supported formats (line 216). -/
def availableFormats : List String := ["yml", "yaml", "json", "js"]

/-- The fatal message of the format check (line 218). -/
def unsupportedMsg (fmt : String) : String :=
  "There is no support for " ++ fmt ++
    " yet. Please use one of the following : yml, yaml, json, js."

/-- The state after the pre-clean plus the two checking subprocesses
(`localeapp -v`, `localeapp install <key>`); neither check changes the
world.  Note `_checkLocaleappGem` cannot fail (see `checkLocaleappGem`). -/
def checksS (d : TaskData) (w0 : World) : S :=
  emit (emit (cleanS ["config", "log"] ⟨w0, []⟩) (.exec "localeapp -v"))
    (.exec ("localeapp install " ++ d.key))

/-- The copy-and-report tail plus the final clean of the task callback
(lines 244-260), entered once formatting finished without throwing. -/
def afterChecks (d : TaskData) (env : Env) (s3 : S) : RunResult :=
  match fetchAndFormatS d env s3 with
  | (s9, true) => ⟨s9.w, s9.tr, .crashed⟩
  | (s9, false) =>
    let s10 := copyGo d.dest (readdir s9.w "config/locales") s9
    let destFiles := readdir s10.w d.dest
    let s11 := cleanS ["config", "log"] s10
    ⟨s11.w, s11.tr, .success destFiles.length⟩

/-- The registered task callback (lines 212-261): pre-clean, format check,
gem check, key check, fetch, format, copy, report, post-clean. -/
def runTask (d : TaskData) (env : Env) (w0 : World) : RunResult :=
  if (availableFormats.contains d.format) = false then
    ⟨(cleanS ["config", "log"] ⟨w0, []⟩).w, (cleanS ["config", "log"] ⟨w0, []⟩).tr,
      .fatalError (unsupportedMsg d.format)⟩
  else if setupProjectFatal env.installStdout then
    ⟨(checksS d w0).w, (checksS d w0).tr, .fatalError "Your API key seems to be invalid"⟩
  else afterChecks d env (checksS d w0)

/-- The concrete `_formatJSON` input used to exhibit the metadata defect:
one pulled file `en-US.yml` whose document wraps `{hello: world}` under the
locale key. -/
def docC1 : Doc := .obj [("en-US", .obj [("hello", .str "world")])]

/-- The `_formatJSON(files, false)` run on the single pulled file above,
starting from a world holding only that file. -/
def c1run : S × Bool :=
  formatJSONGo [("config/locales/en-US.yml", docC1)] false ["en-US.yml"]
    ⟨⟨["config", "config/locales"], [("config/locales/en-US.yml", "rawyaml")]⟩, []⟩

/-- Concrete environment of a straightforward successful run (used to
instantiate the universally quantified theorems). -/
def envEx : Env :=
  ⟨"localeapp version 0.8.0\n", "ok",
    [⟨"en-US.yml", "rawyaml", docC1⟩], 1, 2⟩

/-- Task data of the concrete successful run. -/
def dEx : TaskData := ⟨"KEY", "yml", "out/"⟩

/-- Environment of the destination-concatenation scenario. -/
def envC10 : Env :=
  ⟨"localeapp version 0.8.0\n", "ok",
    [⟨"en-US.yml", "raw-en", docC1⟩], 1, 2⟩

/-- Task data of the destination-concatenation scenario: `dest` does not end
with a separator. -/
def dC10 : TaskData := ⟨"KEY", "yml", "i18n"⟩

/-- Initial world of the destination-concatenation scenario: a pre-existing
`i18n` directory with three unrelated files. -/
def w0C10 : World :=
  ⟨["i18n"], [("i18n/one.txt", "1"), ("i18n/two.txt", "2"), ("i18n/three.txt", "3")]⟩

/-- Initial world of the config-destruction scenario: a pre-existing
top-level `config` directory holding an unrelated file. -/
def w0c9 : World := ⟨["config"], [("config/foo.txt", "x")]⟩

theorem strEq_of_data {a b : String} (h : a.data = b.data) : a = b :=
  congrArg String.mk h

theorem strMk_eq_iff (l : List Char) (s : String) : (⟨l⟩ : String) = s ↔ l = s.data := by
  constructor
  · intro h; rw [← h]
  · intro h; exact strEq_of_data h

theorem strData_append (a b : String) : (a ++ b).data = a.data ++ b.data := rfl

theorem strAppend_assoc (a b c : String) : a ++ b ++ c = a ++ (b ++ c) :=
  strEq_of_data (by simp [strData_append])

theorem leadsWith_refl (p : List Char) : leadsWith p p = true := by
  induction p with
  | nil => rfl
  | cons c cs ih => simp [leadsWith, ih]

theorem leadsWith_iff (p : List Char) : ∀ s, leadsWith p s = true ↔ p <+: s := by
  induction p with
  | nil => intro s; simp [leadsWith]
  | cons c cs ih =>
    intro s
    cases s with
    | nil => simp [leadsWith]
    | cons d ds =>
      rw [List.cons_prefix_cons]
      by_cases h : c = d
      · simp [leadsWith, h, ih ds]
      · simp [leadsWith, h]

theorem beforeFirstOcc_append_pat (hd : Char) (pt l : List Char) (h : hd ∉ l) :
    beforeFirstOcc (hd :: pt) (l ++ hd :: pt) = l := by
  induction l with
  | nil => simp [beforeFirstOcc, leadsWith_refl]
  | cons c cs ih =>
    have hc : hd ≠ c := fun hh => h (hh ▸ List.mem_cons_self c cs)
    have hl : leadsWith (hd :: pt) (c :: (cs ++ hd :: pt)) = false := by
      simp [leadsWith, hc]
    simp [beforeFirstOcc, hl, ih (fun hm => h (List.mem_cons_of_mem c hm))]

theorem splitYmlHead_append (locale : String) (h : '.' ∉ locale.data) :
    splitYmlHead (locale ++ ".yml") = locale := by
  unfold splitYmlHead
  have e1 : (locale ++ ".yml").data = locale.data ++ ('.' :: "yml".data) := rfl
  rw [e1, beforeFirstOcc_append_pat '.' "yml".data locale.data h]

theorem replaceFirstHyphenL_append (p l : List Char) (h : '-' ∉ p) :
    replaceFirstHyphenL (p ++ l) = p ++ replaceFirstHyphenL l := by
  induction p with
  | nil => rfl
  | cons c cs ih =>
    have hc : c ≠ '-' := fun hh => h (hh ▸ List.mem_cons_self c cs)
    simp [replaceFirstHyphenL, hc, ih (fun hm => h (List.mem_cons_of_mem c hm))]

theorem replaceFirstHyphenL_first (a b : List Char) (h : '-' ∉ a) :
    replaceFirstHyphenL (a ++ '-' :: b) = a ++ '_' :: b := by
  rw [replaceFirstHyphenL_append a _ h]
  simp [replaceFirstHyphenL]

theorem replaceFirstHyphen_locales (locale : String) :
    replaceFirstHyphen ("config/locales/" ++ locale) =
      "config/locales/" ++ replaceFirstHyphen locale := by
  unfold replaceFirstHyphen
  have e1 : ("config/locales/" ++ locale).data = "config/locales/".data ++ locale.data := rfl
  rw [e1, replaceFirstHyphenL_append _ _ (by decide)]
  exact strEq_of_data rfl

theorem lookupKey_eq_some_mem {α : Type} {l : List (String × α)} {p : String} {c : α}
    (h : lookupKey l p = some c) : (p, c) ∈ l := by
  induction l with
  | nil => exact absurd h (by simp [lookupKey])
  | cons f fs ih =>
    obtain ⟨a, b⟩ := f
    simp only [lookupKey] at h
    split at h
    · rename_i hf
      injection h with h2
      subst hf; subst h2
      exact List.mem_cons_self _ _
    · exact List.mem_cons_of_mem _ (ih h)

theorem lookupKey_none_of_all {α : Type} {l : List (String × α)} {p : String}
    (h : ∀ x ∈ l, x.1 ≠ p) : lookupKey l p = none := by
  induction l with
  | nil => rfl
  | cons f fs ih =>
    simp only [lookupKey]
    rw [if_neg (h f (List.mem_cons_self f fs))]
    exact ih (fun x hx => h x (List.mem_cons_of_mem f hx))

theorem lookupKey_append_right {α : Type} {l₁ l₂ : List (String × α)} {p : String}
    (h : ∀ x ∈ l₁, x.1 ≠ p) : lookupKey (l₁ ++ l₂) p = lookupKey l₂ p := by
  induction l₁ with
  | nil => rfl
  | cons f fs ih =>
    rw [List.cons_append]
    simp only [lookupKey]
    rw [if_neg (h f (List.mem_cons_self f fs))]
    exact ih (fun x hx => h x (List.mem_cons_of_mem f hx))

theorem leafCountList_eq_sum (l : List (String × Doc)) :
    leafCountList l = (l.map (fun p => leafCount p.2)).sum := by
  induction l with
  | nil => simp [leafCountList]
  | cons e es ih => simp [leafCountList, ih]

theorem leafCountList_perm {es fs : List (String × Doc)} (h : es.Perm fs) :
    leafCountList es = leafCountList fs := by
  rw [leafCountList_eq_sum, leafCountList_eq_sum]
  exact (h.map (fun p => leafCount p.2)).sum_eq

theorem leafCount_reordered {d d' : Doc} (h : Reordered d d') :
    leafCount d = leafCount d' := by
  induction h with
  | str s => rfl
  | num n => rfl
  | objNil => rfl
  | objCons k hv hes ihv ihes =>
      simp only [leafCount, leafCountList] at *
      omega
  | objPerm hp => simpa only [leafCount] using leafCountList_perm hp
  | trans hab hbc ihab ihbc => exact ihab.trans ihbc

theorem addDir_files (w : World) (p : String) : (addDir w p).files = w.files := by
  unfold addDir
  split <;> rfl

theorem foldl_addDir_files (l : List String) (w : World) :
    (l.foldl addDir w).files = w.files := by
  induction l generalizing w with
  | nil => rfl
  | cons p ps ih => rw [List.foldl_cons, ih, addDir_files]

theorem setFileW_lookup (w : World) (path c : String) :
    fileContent (setFileW w path c) path = some c := by
  have h : ∀ x ∈ w.files.filter (fun f => !(f.1 == path)), x.1 ≠ path := by
    intro x hx heq
    have hp := List.of_mem_filter hx
    rw [heq] at hp
    simp at hp
  show lookupKey (w.files.filter (fun f => !(f.1 == path)) ++ [(path, c)]) path = some c
  rw [lookupKey_append_right h]
  simp [lookupKey]

theorem writeFileW_lookup (w : World) (path c : String) :
    fileContent (writeFileW w path c) path = some c :=
  setFileW_lookup ((dirParents path).foldl addDir w) path c

theorem renameFileW_dst (w : World) (src dst c : String)
    (h : fileContent w src = some c) :
    fileContent (renameFileW w src dst) dst = some c := by
  unfold renameFileW
  rw [h]
  have hall : ∀ x ∈ w.files.filter (fun f => !(f.1 == src || f.1 == dst)), x.1 ≠ dst := by
    intro x hx heq
    have hp := List.of_mem_filter hx
    rw [heq] at hp
    simp at hp
  show lookupKey
      (w.files.filter (fun f => !(f.1 == src || f.1 == dst)) ++ [(dst, c)]) dst = some c
  rw [lookupKey_append_right hall]
  simp [lookupKey]

theorem renameFileW_src_gone (w : World) (src dst c : String)
    (h : fileContent w src = some c) (hne : src ≠ dst) :
    fileContent (renameFileW w src dst) src = none := by
  unfold renameFileW
  rw [h]
  show lookupKey
      (w.files.filter (fun f => !(f.1 == src || f.1 == dst)) ++ [(dst, c)]) src = none
  apply lookupKey_none_of_all
  intro x hx
  rcases List.mem_append.1 hx with hx1 | hx2
  · intro heq
    have hp := List.of_mem_filter hx1
    rw [heq] at hp
    simp at hp
  · simp at hx2
    subst hx2
    intro heq
    exact hne heq.symm

theorem formatOneJSON_reduce_js (locale : String) (sub : Doc) (s : S)
    (hdot : '.' ∉ locale.data) :
    formatOneJSON [("config/locales/" ++ locale ++ ".yml", Doc.obj [(locale, sub)])] true s
        (locale ++ ".yml") =
      (writeS
        (renameS s ("config/locales/" ++ locale ++ ".yml")
          ("config/locales/" ++ replaceFirstHyphen locale ++ ".js"))
        ("config/locales/" ++ replaceFirstHyphen locale ++ ".js")
        ("var translate_" ++ replaceFirstHyphen locale ++ " = " ++ stringifyTop sub ++ ";"),
       false) := by
  simp [formatOneJSON, splitYmlHead_append locale hdot, lookupKey, docIndex,
    replaceFirstHyphen_locales]

theorem formatOneJSON_reduce_json (locale : String) (sub : Doc) (s : S)
    (hdot : '.' ∉ locale.data) :
    formatOneJSON [("config/locales/" ++ locale ++ ".yml", Doc.obj [(locale, sub)])] false s
        (locale ++ ".yml") =
      (writeS
        (renameS s ("config/locales/" ++ locale ++ ".yml")
          ("config/locales/" ++ replaceFirstHyphen locale ++ ".json"))
        ("config/locales/" ++ replaceFirstHyphen locale ++ ".json")
        (stringifyTop sub),
       false) := by
  simp [formatOneJSON, splitYmlHead_append locale hdot, lookupKey, docIndex,
    replaceFirstHyphen_locales]

theorem stripAssign_peel (pre body : String) :
    stripAssign (pre ++ body ++ ";") pre.data.length = body := by
  unfold stripAssign
  apply strEq_of_data
  show (((pre ++ body ++ ";").data).dropLast).drop pre.data.length = body.data
  have e : (pre ++ body ++ ";").data = (pre.data ++ body.data) ++ [';'] := by
    simp [strData_append]
  rw [e, List.dropLast_concat, List.drop_left]

/-- C1: at the exhibited input (one fetched file `en-US.yml` holding
`{en-US: {hello: world}}`, format `json`), the formatter does produce
exactly one output file `en_US.json` holding the sub-document without the
wrapping locale key — but its content contains NO `_meta` object, because
`content` is serialized at line 168 while `_meta` is only attached to the
in-memory object at lines 178-181; the object carrying `_meta`
(`jsonWithMeta`) is never serialized.  This contradicts the claim's
"contains a `_meta` object with polledAt, updatedAt and gem fields". -/
theorem c1_meta_never_written :
    c1run.1.w.files = [("config/locales/en_US.json", "\x7b\n  \"hello\": \"world\"\n\x7d")] ∧
    occursInStr "_meta" "\x7b\n  \"hello\": \"world\"\n\x7d" = false ∧
    fileContent c1run.1.w "config/locales/en-US.yml" = none ∧
    c1run.2 = false ∧
    occursInStr "_meta"
      (stringifyTop (jsonWithMeta (.obj [("hello", .str "world")]) 1 2
        "localeapp version 0.8.0")) = true := by
  refine ⟨?_, by decide, ?_, ?_, by decide⟩ <;> decide

/-- C2: the dependency checker can never fail fatally, contrary to the
claim's "fails fatally ... if and only if the version query captures no
standard output": `version` is `stdout.slice(0, -1)`, always a string, so
the `version === undefined` test at line 34 never fires.  With empty
captured output the checker logs success with an undefined version token
instead of failing; with real output it reports the whitespace-delimited
third field of the newline-stripped string. -/
theorem c2_gem_check_never_fatal :
    checkLocaleappGem "" = { fatal := false, reported := none } ∧
    checkLocaleappGem "localeapp version 0.8.0\n" =
      { fatal := false, reported := some "0.8.0" } ∧
    ∀ stdout : String, (checkLocaleappGem stdout).fatal = false := by
  refine ⟨by decide, by decide, fun stdout => rfl⟩

/-- C4: `_setupProject` fails fatally exactly when the captured output of
`localeapp install <key>` begins with the five-character prefix `error`
(line 57: `log.slice(0, 5) === 'error'`); for every other output the check
is false and the success branch runs. -/
theorem c4_invalid_key_iff_error_head (stdout : String) :
    setupProjectFatal stdout = true ↔ "error".data <+: stdout.data := by
  unfold setupProjectFatal jsTake
  rw [beq_iff_eq, strMk_eq_iff]
  constructor
  · intro h
    rw [List.prefix_iff_eq_take, show ("error".data).length = 5 from rfl, h]
  · intro h
    rw [List.prefix_iff_eq_take, show ("error".data).length = 5 from rfl] at h
    exact h.symm

/-- C5: the entry counter is the pure function `leafCount` of the loaded
document; it counts exactly the leaves (values that are not nested
mappings), is invariant under reordering the keys at any nesting depth, and
counting `{a: {b: 1, c: 2}}` yields 2. -/
theorem c5_leaf_count_reorder_invariant :
    (∀ d d' : Doc, Reordered d d' → leafCount d = leafCount d') ∧
    leafCount (.obj [("a", .obj [("b", .num 1), ("c", .num 2)])]) = 2 :=
  ⟨fun _ _ h => leafCount_reordered h, by decide⟩

/-- Witness for C5: the reordering hypothesis discharged at the concrete
document `{a: {b: 1, c: 2}}` against its key-swapped variant. -/
theorem c5_leaf_count_reorder_invariant_w :
    leafCount (.obj [("a", .obj [("b", .num 1), ("c", .num 2)])]) =
      leafCount (.obj [("a", .obj [("c", .num 2), ("b", .num 1)])]) :=
  c5_leaf_count_reorder_invariant.1 _ _
    (.objCons "a" (.objPerm (List.Perm.swap _ _ _)) .objNil)

theorem containsStr_iff {l : List String} {a : String} : l.contains a = true ↔ a ∈ l :=
  List.elem_iff

theorem isDir_false_of_not_mem {w : World} {p : String} (h : p ∉ w.dirs) :
    isDir w p = false := by
  unfold isDir
  cases hc : w.dirs.contains p
  · rfl
  · exact absurd (containsStr_iff.1 hc) h

theorem lookupKey_none_iff {α : Type} {l : List (String × α)} {p : String} :
    lookupKey l p = none ↔ ∀ x ∈ l, x.1 ≠ p := by
  induction l with
  | nil => simp [lookupKey]
  | cons f fs ih =>
    by_cases hf : f.1 = p
    · simp [lookupKey, hf]
    · simp [lookupKey, hf, ih]

theorem lookupKey_filter_none {α : Type} {l : List (String × α)} {p : String}
    (h : lookupKey l p = none) (q : String × α → Bool) :
    lookupKey (l.filter q) p = none :=
  lookupKey_none_iff.2 (fun x hx => lookupKey_none_iff.1 h x (List.mem_of_mem_filter hx))

theorem leadsWith_append_cancel (a x y : List Char) :
    leadsWith (a ++ x) (a ++ y) = leadsWith x y := by
  induction a with
  | nil => rfl
  | cons c cs ih => simp [leadsWith, ih]

theorem addDir_dirs_mono {w : World} {p q : String} (h : q ∈ w.dirs) :
    q ∈ (addDir w p).dirs := by
  unfold addDir
  split
  · exact h
  · exact List.mem_append_left _ h

theorem addDir_dirs_self (w : World) (p : String) : p ∈ (addDir w p).dirs := by
  unfold addDir
  split
  · rename_i hc
    exact containsStr_iff.1 hc
  · exact List.mem_append_right _ (List.mem_singleton.2 rfl)

theorem foldl_addDir_dirs_mono (l : List String) {w : World} {q : String}
    (h : q ∈ w.dirs) : q ∈ (l.foldl addDir w).dirs := by
  induction l generalizing w with
  | nil => exact h
  | cons p ps ih => rw [List.foldl_cons]; exact ih (addDir_dirs_mono h)

theorem writeFileW_dirs_mono {w : World} {path c q : String} (h : q ∈ w.dirs) :
    q ∈ (writeFileW w path c).dirs :=
  foldl_addDir_dirs_mono (dirParents path) h

theorem renameFileW_dirs (w : World) (a b : String) :
    (renameFileW w a b).dirs = w.dirs := by
  unfold renameFileW
  cases fileContent w a <;> rfl

theorem renameS_dirs (s : S) (a b : String) : (renameS s a b).w.dirs = s.w.dirs :=
  renameFileW_dirs s.w a b

theorem writeS_dirs_mono {s : S} {p c q : String} (h : q ∈ s.w.dirs) :
    q ∈ (writeS s p c).w.dirs := writeFileW_dirs_mono h

theorem copyFileW_dirs_mono {w : World} {a b q : String} (h : q ∈ w.dirs) :
    q ∈ (copyFileW w a b).dirs := by
  unfold copyFileW
  cases hfc : fileContent w a
  · exact h
  · exact writeFileW_dirs_mono h

theorem foldl_pull_dirs_mono (l : List PulledFile) :
    ∀ s : S, ∀ q : String, q ∈ s.w.dirs →
      q ∈ (l.foldl
            (fun s f => ⟨writeFileW s.w ("config/locales/" ++ f.name) f.raw, s.tr⟩)
            s).w.dirs := by
  induction l with
  | nil => intro s q h; exact h
  | cons f fs ih =>
    intro s q h
    rw [List.foldl_cons]
    exact ih _ q (writeFileW_dirs_mono h)

theorem pullS_dirs_mono (env : Env) {s : S} {q : String} (h : q ∈ s.w.dirs) :
    q ∈ (pullS env s).w.dirs :=
  foldl_pull_dirs_mono env.pulled _ q (addDir_dirs_mono (addDir_dirs_mono h))

theorem pullS_dirs_config (env : Env) (s : S) : "config" ∈ (pullS env s).w.dirs :=
  foldl_pull_dirs_mono env.pulled _ _ (addDir_dirs_mono (addDir_dirs_self s.w "config"))

theorem formatOneJSON_dirs_mono (docs : List (String × Doc)) (toJS : Bool) (s : S)
    (f : String) {q : String} (h : q ∈ s.w.dirs) :
    q ∈ (formatOneJSON docs toJS s f).1.w.dirs := by
  rcases hd : lookupKey docs ("config/locales/" ++ splitYmlHead f ++ ".yml") with _ | doc
  · simpa [formatOneJSON, hd] using h
  · rcases hi : docIndex doc (splitYmlHead f) with _ | json
    · simp only [formatOneJSON, hd, hi]
      rw [renameS_dirs]
      exact h
    · simp only [formatOneJSON, hd, hi]
      exact writeS_dirs_mono (by rw [renameS_dirs]; exact h)

theorem formatJSONGo_dirs_mono (docs : List (String × Doc)) (toJS : Bool)
    (fs : List String) :
    ∀ s : S, ∀ q : String, q ∈ s.w.dirs →
      q ∈ (formatJSONGo docs toJS fs s).1.w.dirs := by
  induction fs with
  | nil => intro s q h; exact h
  | cons f fs ih =>
    intro s q h
    rcases hfo : formatOneJSON docs toJS s f with ⟨s1, b⟩
    have h1 : q ∈ s1.w.dirs := by
      have hm := formatOneJSON_dirs_mono docs toJS s f h
      rwa [hfo] at hm
    cases b
    · simpa [formatJSONGo, hfo] using ih s1 q h1
    · simpa [formatJSONGo, hfo] using h1

theorem formatYMLGo_dirs_mono (fs : List String) :
    ∀ s : S, ∀ q : String, q ∈ s.w.dirs → q ∈ (formatYMLGo fs s).w.dirs := by
  induction fs with
  | nil => intro s q h; exact h
  | cons f fs ih =>
    intro s q h
    simp only [formatYMLGo]
    exact ih _ q (by rw [renameS_dirs]; exact h)

theorem copyGo_dirs_mono (dest : String) (ns : List String) :
    ∀ s : S, ∀ q : String, q ∈ s.w.dirs → q ∈ (copyGo dest ns s).w.dirs := by
  induction ns with
  | nil => intro s q h; exact h
  | cons n ns ih =>
    intro s q h
    simp only [copyGo]
    exact ih _ q (copyFileW_dirs_mono h)

theorem fetchAndFormat_dirs (d : TaskData) (env : Env) (s : S) :
    "config" ∈ (fetchAndFormatS d env s).1.w.dirs ∧
    "log" ∈ (fetchAndFormatS d env s).1.w.dirs := by
  have hc : "config" ∈ (pullS env (emit (openS (mkdirS (mkdirS s "config/locales") "log")
      "log/localeapp.yml") (.exec "localeapp pull"))).w.dirs := pullS_dirs_config env _
  have hl : "log" ∈ (pullS env (emit (openS (mkdirS (mkdirS s "config/locales") "log")
      "log/localeapp.yml") (.exec "localeapp pull"))).w.dirs :=
    pullS_dirs_mono env (addDir_dirs_self _ _)
  simp only [fetchAndFormatS]
  split
  · exact ⟨formatJSONGo_dirs_mono _ _ _ _ _ hc, formatJSONGo_dirs_mono _ _ _ _ _ hl⟩
  · split
    · exact ⟨formatJSONGo_dirs_mono _ _ _ _ _ hc, formatJSONGo_dirs_mono _ _ _ _ _ hl⟩
    · exact ⟨formatYMLGo_dirs_mono _ _ _ hc, formatYMLGo_dirs_mono _ _ _ hl⟩

theorem cleanCL_eq (s : S) :
    cleanS ["config", "log"] s = cleanStep (cleanStep s "config") "log" := rfl

theorem cleanCL_dirs (s : S) (hc : "config" ∈ s.w.dirs) (hl : "log" ∈ s.w.dirs) :
    isDir (cleanS ["config", "log"] s).w "config/locales" = false ∧
    isDir (cleanS ["config", "log"] s).w "log" = false := by
  have hstep1 : cleanStep s "config" =
      ⟨deleteDirW s.w "config", s.tr ++ [.deleteDir "config"]⟩ :=
    if_pos (containsStr_iff.2 hc)
  have hl2 : "log" ∈ (deleteDirW s.w "config").dirs := by
    simp only [deleteDirW]
    exact List.mem_filter.2 ⟨hl, by decide⟩
  rw [cleanCL_eq, hstep1]
  simp only [cleanStep]
  split
  · constructor
    · apply isDir_false_of_not_mem
      intro hmem
      simp only [deleteDirW, List.mem_filter] at hmem
      exact absurd hmem.1.2 (by decide)
    · apply isDir_false_of_not_mem
      intro hmem
      simp only [deleteDirW, List.mem_filter] at hmem
      exact absurd hmem.2 (by decide)
  · rename_i hfalse
    exact absurd (containsStr_iff.2 hl2) hfalse

theorem cleanCL_files (s : S) (hc : "config" ∈ s.w.dirs) (path : String)
    (hp : underDir "config" path = true) :
    fileContent (cleanS ["config", "log"] s).w path = none := by
  have hstep1 : cleanStep s "config" =
      ⟨deleteDirW s.w "config", s.tr ++ [.deleteDir "config"]⟩ :=
    if_pos (containsStr_iff.2 hc)
  have h1 : fileContent (deleteDirW s.w "config") path = none := by
    simp only [fileContent, deleteDirW]
    apply lookupKey_none_of_all
    intro x hx heq
    have h2 := List.of_mem_filter hx
    rw [heq] at h2
    simp [hp] at h2
  rw [cleanCL_eq, hstep1]
  simp only [cleanStep]
  split
  · exact lookupKey_filter_none h1 _
  · exact h1

theorem cleanStep_not_mem (s : S) (p : String) : p ∉ (cleanStep s p).w.dirs := by
  unfold cleanStep
  by_cases h : isDir s.w p = true
  · rw [if_pos h]
    intro hmem
    simp only [deleteDirW, List.mem_filter] at hmem
    simp at hmem
  · rw [if_neg h]
    intro hmem
    exact h (containsStr_iff.2 hmem)

theorem cleanStep_pres_not (s : S) (p q : String) (h : q ∉ s.w.dirs) :
    q ∉ (cleanStep s p).w.dirs := by
  unfold cleanStep
  by_cases hd : isDir s.w p = true
  · rw [if_pos hd]
    intro hmem
    simp only [deleteDirW, List.mem_filter] at hmem
    exact h hmem.1
  · rw [if_neg hd]
    exact h

theorem cleanStep_id_of_not {s : S} {p : String} (h : p ∉ s.w.dirs) : cleanStep s p = s := by
  unfold cleanStep
  rw [if_neg (show ¬isDir s.w p = true from fun hc => h (containsStr_iff.1 hc))]

theorem cleanCL_not_mem (s : S) :
    "config" ∉ (cleanS ["config", "log"] s).w.dirs ∧
    "log" ∉ (cleanS ["config", "log"] s).w.dirs := by
  rw [cleanCL_eq]
  exact ⟨cleanStep_pres_not _ _ _ (cleanStep_not_mem s "config"), cleanStep_not_mem _ "log"⟩

theorem cleanCL_idem (s : S) :
    cleanS ["config", "log"] (cleanS ["config", "log"] s) = cleanS ["config", "log"] s := by
  obtain ⟨h1, h2⟩ := cleanCL_not_mem s
  rw [cleanCL_eq (cleanS ["config", "log"] s), cleanStep_id_of_not h1, cleanStep_id_of_not h2]

theorem cleanS_tr_deleteDir (folders : List String) :
    ∀ s : S, (∀ e ∈ s.tr, ∃ p, e = .deleteDir p) →
      ∀ e ∈ (cleanS folders s).tr, ∃ p, e = .deleteDir p := by
  induction folders with
  | nil => intro s h; exact h
  | cons f fs ih =>
    intro s h
    show ∀ e ∈ (cleanS fs (cleanStep s f)).tr, ∃ p, e = .deleteDir p
    apply ih
    unfold cleanStep
    by_cases hd : isDir s.w f = true
    · rw [if_pos hd]
      intro e he
      rcases List.mem_append.1 he with h1 | h2
      · exact h e h1
      · exact ⟨f, List.mem_singleton.1 h2⟩
    · rw [if_neg hd]
      exact h

theorem afterChecks_success (d : TaskData) (env : Env) (s : S) (n : Nat)
    (h : (afterChecks d env s).outcome = .success n) :
    isDir (afterChecks d env s).world "config/locales" = false ∧
    isDir (afterChecks d env s).world "log" = false ∧
    ∀ path, underDir "config" path = true →
      fileContent (afterChecks d env s).world path = none := by
  rcases hfs : fetchAndFormatS d env s with ⟨s9, b⟩
  cases b
  · have hdirs := fetchAndFormat_dirs d env s
    rw [hfs] at hdirs
    obtain ⟨hc9, hl9⟩ := hdirs
    have hc10 : "config" ∈ (copyGo d.dest (readdir s9.w "config/locales") s9).w.dirs :=
      copyGo_dirs_mono _ _ _ _ hc9
    have hl10 : "log" ∈ (copyGo d.dest (readdir s9.w "config/locales") s9).w.dirs :=
      copyGo_dirs_mono _ _ _ _ hl9
    simp only [afterChecks, hfs]
    exact ⟨(cleanCL_dirs _ hc10 hl10).1, (cleanCL_dirs _ hc10 hl10).2,
      fun path hp => cleanCL_files _ hc10 path hp⟩
  · simp only [afterChecks, hfs] at h
    exact Outcome.noConfusion h

theorem runTask_success_shape (d : TaskData) (env : Env) (w0 : World) (n : Nat)
    (h : (runTask d env w0).outcome = .success n) :
    runTask d env w0 = afterChecks d env (checksS d w0) := by
  unfold runTask at h ⊢
  by_cases h1 : (availableFormats.contains d.format) = false
  · rw [if_pos h1] at h
    exact absurd h (by simp)
  · rw [if_neg h1] at h ⊢
    by_cases h2 : setupProjectFatal env.installStdout = true
    · rw [if_pos h2] at h
      exact absurd h (by simp)
    · rw [if_neg h2]

/-- C6: output-name normalization replaces only the FIRST hyphen of the
locale with an underscore (later hyphens survive untouched, the `b` part
below being arbitrary), the extension is the one the format selects
(`.js` / `.json` in `_formatJSON`, `.yml` in `_formatYML`), and the YAML
passthrough variant only renames: the moved file keeps its exact content
and no metadata is injected. -/
theorem c6_first_hyphen_normalization :
    (∀ a b : List Char, '-' ∉ a →
      replaceFirstHyphenL (a ++ '-' :: b) = a ++ '_' :: b) ∧
    (∀ locale : String, '.' ∉ locale.data → ∀ sub : Doc, ∀ s : S,
      ((formatOneJSON [("config/locales/" ++ locale ++ ".yml", Doc.obj [(locale, sub)])]
          true s (locale ++ ".yml")).1.tr =
        s.tr ++ [Event.renameFile ("config/locales/" ++ locale ++ ".yml")
                   ("config/locales/" ++ replaceFirstHyphen locale ++ ".js"),
                 Event.writeFile ("config/locales/" ++ replaceFirstHyphen locale ++ ".js")]) ∧
      ((formatOneJSON [("config/locales/" ++ locale ++ ".yml", Doc.obj [(locale, sub)])]
          false s (locale ++ ".yml")).1.tr =
        s.tr ++ [Event.renameFile ("config/locales/" ++ locale ++ ".yml")
                   ("config/locales/" ++ replaceFirstHyphen locale ++ ".json"),
                 Event.writeFile ("config/locales/" ++ replaceFirstHyphen locale ++ ".json")])) ∧
    (∀ locale raw : String, ∀ s : S, '.' ∉ locale.data →
      fileContent s.w ("config/locales/" ++ locale ++ ".yml") = some raw →
      fileContent (formatYMLGo [locale ++ ".yml"] s).w
          ("config/locales/" ++ replaceFirstHyphen locale ++ ".yml") = some raw ∧
      (replaceFirstHyphen locale ≠ locale →
        fileContent (formatYMLGo [locale ++ ".yml"] s).w
          ("config/locales/" ++ locale ++ ".yml") = none)) := by
  refine ⟨replaceFirstHyphenL_first, ?_, ?_⟩
  · intro locale hdot sub s
    constructor
    · rw [formatOneJSON_reduce_js locale sub s hdot]
      simp [writeS, renameS]
    · rw [formatOneJSON_reduce_json locale sub s hdot]
      simp [writeS, renameS]
  · intro locale raw s hdot hfc
    have hred : formatYMLGo [locale ++ ".yml"] s =
        renameS s ("config/locales/" ++ locale ++ ".yml")
          ("config/locales/" ++ replaceFirstHyphen locale ++ ".yml") := by
      simp [formatYMLGo, splitYmlHead_append locale hdot, replaceFirstHyphen_locales]
    rw [hred]
    constructor
    · exact renameFileW_dst _ _ _ raw hfc
    · intro hrep
      apply renameFileW_src_gone _ _ _ raw hfc
      intro heq
      apply hrep
      have hd : ("config/locales/" ++ locale ++ ".yml").data =
          ("config/locales/" ++ replaceFirstHyphen locale ++ ".yml").data :=
        congrArg String.data heq
      simp only [strData_append] at hd
      have h3 := List.append_cancel_right hd
      have h4 := List.append_cancel_left h3
      exact (strEq_of_data h4).symm

/-- Witness for C6: the hypotheses discharged at `en-US` (and, for the
first-hyphen-only part, at the multi-hyphen code `en-US-x`). -/
theorem c6_first_hyphen_normalization_w :
    replaceFirstHyphenL ("en".data ++ '-' :: "US-x".data) = "en".data ++ '_' :: "US-x".data ∧
    (formatOneJSON [("config/locales/" ++ "en-US" ++ ".yml",
        Doc.obj [("en-US", Doc.obj [])])] true ⟨⟨[], []⟩, []⟩ ("en-US" ++ ".yml")).1.tr =
      ([] : List Event) ++
        [Event.renameFile ("config/locales/" ++ "en-US" ++ ".yml")
           ("config/locales/" ++ replaceFirstHyphen "en-US" ++ ".js"),
         Event.writeFile ("config/locales/" ++ replaceFirstHyphen "en-US" ++ ".js")] ∧
    fileContent
        (formatYMLGo ["en-US" ++ ".yml"]
          ⟨⟨[], [("config/locales/" ++ "en-US" ++ ".yml", "rawyaml")]⟩, []⟩).w
        ("config/locales/" ++ replaceFirstHyphen "en-US" ++ ".yml") = some "rawyaml" ∧
    fileContent
        (formatYMLGo ["en-US" ++ ".yml"]
          ⟨⟨[], [("config/locales/" ++ "en-US" ++ ".yml", "rawyaml")]⟩, []⟩).w
        ("config/locales/" ++ "en-US" ++ ".yml") = none :=
  ⟨c6_first_hyphen_normalization.1 "en".data "US-x".data (by decide),
   (c6_first_hyphen_normalization.2.1 "en-US" (by decide) (Doc.obj []) ⟨⟨[], []⟩, []⟩).1,
   (c6_first_hyphen_normalization.2.2 "en-US" "rawyaml"
     ⟨⟨[], [("config/locales/" ++ "en-US" ++ ".yml", "rawyaml")]⟩, []⟩
     (by decide) (by decide)).1,
   (c6_first_hyphen_normalization.2.2 "en-US" "rawyaml"
     ⟨⟨[], [("config/locales/" ++ "en-US" ++ ".yml", "rawyaml")]⟩, []⟩
     (by decide) (by decide)).2 (by decide)⟩

/-- C7: for every fetched file processed with format `js`, the written
content is the assignment statement
`var translate_<normalized locale> = <JSON literal>;`, the iteration does
not throw, and stripping the assignment prefix and the trailing semicolon
leaves exactly the pretty-printed serialization the `json` variant writes
for the same document. -/
theorem c7_js_assignment_wrapping (locale : String) (sub : Doc) (s : S)
    (hdot : '.' ∉ locale.data) :
    (formatOneJSON [("config/locales/" ++ locale ++ ".yml", Doc.obj [(locale, sub)])] true s
        (locale ++ ".yml")).2 = false ∧
    fileContent
        (formatOneJSON [("config/locales/" ++ locale ++ ".yml", Doc.obj [(locale, sub)])]
          true s (locale ++ ".yml")).1.w
        ("config/locales/" ++ replaceFirstHyphen locale ++ ".js") =
      some ("var translate_" ++ replaceFirstHyphen locale ++ " = " ++ stringifyTop sub ++ ";") ∧
    stripAssign
        ("var translate_" ++ replaceFirstHyphen locale ++ " = " ++ stringifyTop sub ++ ";")
        ("var translate_" ++ replaceFirstHyphen locale ++ " = ").data.length =
      stringifyTop sub ∧
    fileContent
        (formatOneJSON [("config/locales/" ++ locale ++ ".yml", Doc.obj [(locale, sub)])]
          false s (locale ++ ".yml")).1.w
        ("config/locales/" ++ replaceFirstHyphen locale ++ ".json") =
      some (stringifyTop sub) := by
  refine ⟨?_, ?_, ?_, ?_⟩
  · rw [formatOneJSON_reduce_js locale sub s hdot]
  · rw [formatOneJSON_reduce_js locale sub s hdot]
    exact writeFileW_lookup _ _ _
  · exact stripAssign_peel ("var translate_" ++ replaceFirstHyphen locale ++ " = ")
      (stringifyTop sub)
  · rw [formatOneJSON_reduce_json locale sub s hdot]
    exact writeFileW_lookup _ _ _

/-- Witness for C7: the dot-free-locale hypothesis discharged at `en-US`
with document `{hello: world}`. -/
theorem c7_js_assignment_wrapping_w :
    (formatOneJSON [("config/locales/" ++ "en-US" ++ ".yml",
        Doc.obj [("en-US", Doc.obj [("hello", Doc.str "world")])])] true ⟨⟨[], []⟩, []⟩
        ("en-US" ++ ".yml")).2 = false ∧
    fileContent
        (formatOneJSON [("config/locales/" ++ "en-US" ++ ".yml",
          Doc.obj [("en-US", Doc.obj [("hello", Doc.str "world")])])] true ⟨⟨[], []⟩, []⟩
          ("en-US" ++ ".yml")).1.w
        ("config/locales/" ++ replaceFirstHyphen "en-US" ++ ".js") =
      some ("var translate_" ++ replaceFirstHyphen "en-US" ++ " = " ++
        stringifyTop (Doc.obj [("hello", Doc.str "world")]) ++ ";") ∧
    stripAssign
        ("var translate_" ++ replaceFirstHyphen "en-US" ++ " = " ++
          stringifyTop (Doc.obj [("hello", Doc.str "world")]) ++ ";")
        ("var translate_" ++ replaceFirstHyphen "en-US" ++ " = ").data.length =
      stringifyTop (Doc.obj [("hello", Doc.str "world")]) ∧
    fileContent
        (formatOneJSON [("config/locales/" ++ "en-US" ++ ".yml",
          Doc.obj [("en-US", Doc.obj [("hello", Doc.str "world")])])] false ⟨⟨[], []⟩, []⟩
          ("en-US" ++ ".yml")).1.w
        ("config/locales/" ++ replaceFirstHyphen "en-US" ++ ".json") =
      some (stringifyTop (Doc.obj [("hello", Doc.str "world")])) :=
  c7_js_assignment_wrapping "en-US" (Doc.obj [("hello", Doc.str "world")]) ⟨⟨[], []⟩, []⟩
    (by decide)

/-- C3: for every configured format outside `{yml, yaml, json, js}`, the task
fails fatally with the unsupported-format message before anything else
happens: the entire trace consists of directory deletions (the pre-clean),
so no subprocess was invoked (no dependency check, no authentication, no
fetch) and no working directory was created. -/
theorem c3_bad_format_fails_before_effects (d : TaskData) (env : Env) (w0 : World)
    (h : availableFormats.contains d.format = false) :
    (runTask d env w0).outcome = .fatalError (unsupportedMsg d.format) ∧
    ∀ e ∈ (runTask d env w0).trace, ∃ p, e = .deleteDir p := by
  unfold runTask
  rw [if_pos h]
  exact ⟨rfl, cleanS_tr_deleteDir ["config", "log"] ⟨w0, []⟩ (by simp)⟩

/-- Witness for C3: the invalid format `xml`. -/
theorem c3_bad_format_fails_before_effects_w :
    (runTask ⟨"KEY", "xml", "out/"⟩ envEx ⟨[], []⟩).outcome =
      .fatalError (unsupportedMsg "xml") ∧
    ∀ e ∈ (runTask ⟨"KEY", "xml", "out/"⟩ envEx ⟨[], []⟩).trace, ∃ p, e = .deleteDir p :=
  c3_bad_format_fails_before_effects ⟨"KEY", "xml", "out/"⟩ envEx ⟨[], []⟩ (by decide)

/-- C8: on every successful run, whatever format path was taken, the final
world contains neither a `config/locales` directory nor a `log` directory
(the closing `_clean(['config', 'log'])` removes them), and the same
deletion performed before the run starts is idempotent. -/
theorem c8_workdirs_removed_on_success (d : TaskData) (env : Env) (w0 : World) (n : Nat)
    (h : (runTask d env w0).outcome = .success n) :
    isDir (runTask d env w0).world "config/locales" = false ∧
    isDir (runTask d env w0).world "log" = false ∧
    cleanS ["config", "log"] (cleanS ["config", "log"] ⟨w0, []⟩) =
      cleanS ["config", "log"] ⟨w0, []⟩ := by
  have hs := runTask_success_shape d env w0 n h
  rw [hs] at h ⊢
  obtain ⟨h1, h2, _⟩ := afterChecks_success d env _ n h
  exact ⟨h1, h2, cleanCL_idem ⟨w0, []⟩⟩

/-- Witness for C8: a concrete successful `yml`-format run from the empty
world. -/
theorem c8_workdirs_removed_on_success_w :
    isDir (runTask dEx envEx ⟨[], []⟩).world "config/locales" = false ∧
    isDir (runTask dEx envEx ⟨[], []⟩).world "log" = false ∧
    cleanS ["config", "log"] (cleanS ["config", "log"] ⟨⟨[], []⟩, []⟩) =
      cleanS ["config", "log"] ⟨⟨[], []⟩, []⟩ :=
  c8_workdirs_removed_on_success dEx envEx ⟨[], []⟩ 1 (by decide)

/-- C9: `_clean(['config', 'log'])` deletes the ENTIRE top-level `config`
directory, not merely `config/locales`, so a pre-existing unrelated file
under `config` is destroyed by the pre-clean of every run — including a run
that then fails the format check — and is also absent after every
successful run. -/
theorem c9_config_dir_destroyed (w0 : World) (path : String)
    (hc : "config" ∈ w0.dirs) (hp : underDir "config" path = true) :
    fileContent (cleanS ["config", "log"] ⟨w0, []⟩).w path = none ∧
    (∀ d : TaskData, ∀ env : Env, availableFormats.contains d.format = false →
      fileContent (runTask d env w0).world path = none) ∧
    (∀ d : TaskData, ∀ env : Env, ∀ n : Nat, (runTask d env w0).outcome = .success n →
      fileContent (runTask d env w0).world path = none) := by
  refine ⟨cleanCL_files ⟨w0, []⟩ hc path hp, ?_, ?_⟩
  · intro d env hf
    unfold runTask
    rw [if_pos hf]
    exact cleanCL_files ⟨w0, []⟩ hc path hp
  · intro d env n h
    have hs := runTask_success_shape d env w0 n h
    rw [hs] at h ⊢
    exact (afterChecks_success d env _ n h).2.2 path hp

/-- Witness for C9: the file `config/foo.txt` is gone after the pre-clean,
after a run rejected by the format check, and after a successful run. -/
theorem c9_config_dir_destroyed_w :
    fileContent (cleanS ["config", "log"] ⟨w0c9, []⟩).w "config/foo.txt" = none ∧
    fileContent (runTask ⟨"KEY", "xml", "out/"⟩ envEx w0c9).world "config/foo.txt" = none ∧
    fileContent (runTask dEx envEx w0c9).world "config/foo.txt" = none :=
  ⟨(c9_config_dir_destroyed w0c9 "config/foo.txt" (by decide) (by decide)).1,
   (c9_config_dir_destroyed w0c9 "config/foo.txt" (by decide) (by decide)).2.1
     ⟨"KEY", "xml", "out/"⟩ envEx (by decide),
   (c9_config_dir_destroyed w0c9 "config/foo.txt" (by decide) (by decide)).2.2
     dEx envEx 1 (by decide)⟩

/-- C10: the publisher forms each destination path by plain string
concatenation with no separator, so for a `dest` not ending in a separator
(and a filename not starting with one) the written path never lies inside
the `dest` directory; in the concrete scenario with `dest = "i18n"` the
locale file lands at the sibling path `i18nen_US.yml`, not at
`i18n/en_US.yml`, while the reported copy count (3) comes from re-listing
the `i18n` directory, which still holds only its three pre-existing
unrelated files. -/
theorem c10_dest_plain_concatenation :
    (∀ dest name : String, dest.data.getLast? ≠ some '/' → name.data.head? ≠ some '/' →
      leadsWith (dest ++ "/").data (dest ++ name).data = false) ∧
    (runTask dC10 envC10 w0C10).outcome = .success 3 ∧
    fileContent (runTask dC10 envC10 w0C10).world "i18nen_US.yml" = some "raw-en" ∧
    fileContent (runTask dC10 envC10 w0C10).world "i18n/en_US.yml" = none := by
  refine ⟨?_, by decide, by decide, by decide⟩
  intro dest name hd hn
  have e1 : (dest ++ "/").data = dest.data ++ ['/'] := rfl
  have e2 : (dest ++ name).data = dest.data ++ name.data := rfl
  rw [e1, e2, leadsWith_append_cancel]
  rcases hnd : name.data with _ | ⟨c, cs⟩
  · rfl
  · rw [hnd] at hn
    have hc : ¬('/' = c) := by
      intro hcc
      exact hn (by simp [← hcc])
    simp [leadsWith, hc]

/-- Witness for C10: the separator hypotheses discharged at `dest = "i18n"`
and `name = "en_US.yml"`. -/
theorem c10_dest_plain_concatenation_w :
    leadsWith ("i18n" ++ "/").data ("i18n" ++ "en_US.yml").data = false :=
  c10_dest_plain_concatenation.1 "i18n" "en_US.yml" (by decide) (by decide)

end GruntLocaleapp
